import Mathlib

/-!
# Verification of the Groq-RAG-App retrieval core

A shallow embedding of the retrieval pipeline of this repository:

* `utils/chromadb_utils.py` — collection-name sanitizer, collection
  creation/lookup, document insertion, similarity query;
* `utils/pdf_processing.py` — fixed-size text chunking;
* `pages/2_Chat_with_PDF.py` — ingestion guard and grounded-prompt
  construction.

Python strings are modelled as lists of Unicode code points (`List Nat`),
exactly as Python itself treats `str` as a sequence of code points.
Fallible Python operations are modelled with `Option`/`Except`.
-/

/-! ## Python string model -/

/-- Code points of a Lean string literal, used to write the concrete
Python string values appearing in the repository. -/
def strToCodes (s : String) : List Nat := s.data.map Char.toNat

/-- The regex character class `[a-zA-Z0-9]` (ASCII alphanumeric), on a
code point. -/
def isAlnum (c : Nat) : Bool :=
  decide ((48 ≤ c ∧ c ≤ 57) ∨ (65 ≤ c ∧ c ≤ 90) ∨ (97 ≤ c ∧ c ≤ 122))

/-- The regex character class `[a-zA-Z0-9_-]`: ASCII alphanumeric plus
underscore (code 95) and dash (code 45). -/
def isAllowed (c : Nat) : Bool := isAlnum c || c == 95 || c == 45

/-- Python's `str.lower` on one code point of the sanitizer's intermediate result.
By the time `sanitize_collection_name` lowercases, every character is in
`[A-Za-z0-9_-]` (all ASCII), where Python's `str.lower` maps `A`–`Z` to
`a`–`z` and fixes everything else. -/
def lowerCh (c : Nat) : Nat := if 65 ≤ c ∧ c ≤ 90 then c + 32 else c

/-! ## `sanitize_collection_name` (utils/chromadb_utils.py)

The function is a pipeline of five regex/string steps; each step is one
definition below, named after the source comment it implements. -/

/-- The step `re.sub(r"[^a-zA-Z0-9_-]", "_", name)`: replace invalid characters
with underscore (code 95). -/
def replaceInvalid (name : List Nat) : List Nat :=
  name.map fun c => if isAllowed c then c else 95

/-- The step `re.sub(r"^[^a-zA-Z0-9]+", "", s)`: strip the leading run of
non-alphanumeric characters. -/
def stripLeadingNonAlnum (l : List Nat) : List Nat := l.dropWhile fun c => !isAlnum c

/-- The step `re.sub(r"[^a-zA-Z0-9]+$", "", s)`: strip the trailing run of
non-alphanumeric characters. -/
def dropTrailingNonAlnum (l : List Nat) : List Nat :=
  (l.reverse.dropWhile fun c => !isAlnum c).reverse

/-- The step `if len(s) < 3: s = f"col_{s}"`; `[99, 111, 108, 95]` is `"col_"`. -/
def padIfShort (l : List Nat) : List Nat :=
  if l.length < 3 then [99, 111, 108, 95] ++ l else l

/-- Function `sanitize_collection_name` from `utils/chromadb_utils.py`: replace
invalid characters, strip non-alphanumeric boundaries, pad to length 3
with `col_`, truncate to 63 (`s[:63]`), strip the trailing boundary
again, and lowercase. -/
def sanitize_collection_name (name : List Nat) : List Nat :=
  (dropTrailingNonAlnum
    ((padIfShort (dropTrailingNonAlnum (stripLeadingNonAlnum (replaceInvalid name)))).take
      63)).map lowerCh

/-- An input on which the sanitizer's min-length repair is undone by the
truncate-then-strip steps: `"ab"` followed by 62 underscores and `"c"`
(65 characters in all). -/
def sanitizeLengthBugInput : List Nat :=
  strToCodes "ab" ++ List.replicate 62 95 ++ strToCodes "c"

/-- A second input of the same shape, `"xy" ++ "_" * 62 ++ "z"`, whose
sanitized form `"xy"` is not a fixed point of the sanitizer. -/
def sanitizeIdemBugInput : List Nat :=
  strToCodes "xy" ++ List.replicate 62 95 ++ strToCodes "z"

/-! ## `split_text_into_chunks` (utils/pdf_processing.py)

`return [text[i:i+chunk_size] for i in range(0, len(text), chunk_size)]`

`range` with step 0 raises `ValueError`, so the embedding of `range`
returns an `Option`; the other arguments never fail. -/

/-- Python's `range(start, stop, step)` as a list.  `none` models the
`ValueError` raised when `step == 0`. -/
def pyRange (start stop step : Int) : Option (List Int) :=
  if step = 0 then none
  else if 0 < step then
    some (((List.range (((stop - start).toNat + step.toNat - 1) / step.toNat)).map
      fun (i : Nat) => start + step * (i : Int)))
  else
    some (((List.range (((start - stop).toNat + (-step).toNat - 1) / (-step).toNat)).map
      fun (i : Nat) => start + step * (i : Int)))

/-- Clamp a Python slice endpoint into `[0, len]`: negative indices count
from the end of the sequence. -/
def pyAdjust (len : Nat) (i : Int) : Nat :=
  if i < 0 then ((len : Int) + i).toNat else min i.toNat len

/-- Python's slice `s[i:j]`. -/
def pySlice {α : Type} (s : List α) (i j : Int) : List α :=
  (s.drop (pyAdjust s.length i)).take (pyAdjust s.length j - pyAdjust s.length i)

/-- Function `split_text_into_chunks` from `utils/pdf_processing.py`: the slice
`text[i:i+chunk_size]` for each `i` in `range(0, len(text), chunk_size)`.
`none` models the `ValueError` from `range` when `chunk_size == 0`. -/
def split_text_into_chunks (text : List Nat) (chunk_size : Int) : Option (List (List Nat)) :=
  (pyRange 0 text.length chunk_size).map fun idxs =>
    idxs.map fun i => pySlice text i (i + chunk_size)

/-- Reference chunking by structural recursion: repeatedly take `n`
characters.  Proved equal to `split_text_into_chunks` for positive sizes
(`split_text_into_chunks_eq_chunkList`); the page model below uses it at
the call's default size 500. -/
def chunkList : List Nat → Nat → List (List Nat)
  | [], _ => []
  | _ :: _, 0 => []
  | a :: t, n + 1 => (a :: t).take (n + 1) :: chunkList ((a :: t).drop (n + 1)) (n + 1)
termination_by s _ => s.length
decreasing_by simp; omega

/-! ## ChromaDB collection model (utils/chromadb_utils.py)

The ChromaDB client itself is an external library; its behaviour at the
calls this repository makes is modelled from the spec, as the doc
comments below note.  Embeddings are an abstract type parameter `α`. -/

/-- One stored chunk: the arguments of the `collection.add` call in
`add_documents_to_collection` — id `f"chunk_{idx}"`, the document text,
the `{"chunk_index": idx}` metadata, and the embedding vector. -/
structure Entry (α : Type) where
  id : String
  document : List Nat
  chunk_index : Nat
  embedding : α

/-- The value `collection.get()["documents"]`: the stored document texts. -/
def documents {α : Type} (c : List (Entry α)) : List (List Nat) :=
  c.map fun e => e.document

/-- The id `f"chunk_{idx}"` used by `add_documents_to_collection`. -/
def chunkId (idx : Nat) : String := "chunk_" ++ toString idx

/-- Does the collection already hold an entry with this id? -/
def hasId {α : Type} (c : List (Entry α)) (i : String) : Bool :=
  c.any fun x => x.id == i

/-- Modelled from the spec: `collection.add` of the ChromaDB backend is
not part of this repository.  Per the spec's add contract, "each chunk
id must be unique within the collection; an attempt to add a duplicate
id" fails for that item; a fresh id appends the entry. -/
def collection_add {α : Type} (c : List (Entry α)) (e : Entry α) :
    Except Unit (List (Entry α)) :=
  if hasId c e.id then .error () else .ok (c ++ [e])

/-- The loop of `add_documents_to_collection`: each `(chunk, embedding)`
pair is added under id `chunk_{idx}` inside `try`; on exception the item
is skipped (`continue`) and the loop goes on; successes are counted. -/
def add_documents_loop {α : Type} (c : List (Entry α)) (idx : Nat) :
    List (List Nat × α) → List (Entry α) × Nat
  | [] => (c, 0)
  | (chunk, emb) :: rest =>
    match collection_add c ⟨chunkId idx, chunk, idx, emb⟩ with
    | .ok c' =>
      let r := add_documents_loop c' (idx + 1) rest
      (r.1, r.2 + 1)
    | .error _ => add_documents_loop c (idx + 1) rest

/-- Function `add_documents_to_collection` from `utils/chromadb_utils.py`:
`for idx, (chunk, embedding) in enumerate(zip(chunks, embeddings))`,
adding each pair and returning `added_count`. -/
def add_documents_to_collection {α : Type} (c : List (Entry α))
    (chunks : List (List Nat)) (embeddings : List α) : List (Entry α) × Nat :=
  add_documents_loop c 0 (chunks.zip embeddings)

/-- Function `query_collection` from `utils/chromadb_utils.py`, as a function of
the backend call's outcome: the `try` body returns
`results["documents"][0]` when the `"documents"` key is present (`some`)
and its value truthy (non-empty); every other case — absent key, empty
value, or an exception from `collection.query` (`.error`) — falls
through to `return []` (the exception path also emits `st.warning`). -/
def query_collection (backend : Except Unit (Option (List (List (List Nat))))) :
    List (List Nat) :=
  match backend with
  | .error _ => []
  | .ok none => []
  | .ok (some []) => []
  | .ok (some (d :: _)) => d

/-- Modelled from the spec: the ChromaDB backend's answer to
`collection.query(query_embeddings=[query_embedding], n_results=n)` on a
collection created with `{"hnsw:space": "cosine"}` — one list of stored
documents "ranked by ascending cosine distance", truncated to `n`.  The
cosine distance itself is abstracted as the rational-valued parameter
`dist`. -/
def chroma_query {α : Type} (dist : α → α → ℚ) (c : List (Entry α)) (q : α)
    (n : Nat) : Except Unit (Option (List (List (List Nat)))) :=
  .ok (some
    [((c.insertionSort fun e₁ e₂ => dist e₁.embedding q ≤ dist e₂.embedding q).take n).map
      fun e => e.document])

/-! ## ChromaDB client model (`create_or_get_collection`) -/

/-- A collection handle as `create_or_get_collection` sees it: its name
and creation metadata. -/
structure ChromaCollection where
  name : String
  metadata : List (String × String)
deriving DecidableEq

/-- Modelled from the spec: `chroma_client.get_collection` raises when no
collection of that name exists, otherwise returns the handle. -/
def client_get (s : List ChromaCollection) (name : String) :
    Except Unit ChromaCollection :=
  match s.find? fun c => c.name == name with
  | some c => .ok c
  | none => .error ()

/-- Modelled from the spec: `chroma_client.create_collection` raises when
the name already exists, otherwise registers a fresh collection carrying
the supplied metadata. -/
def client_create (s : List ChromaCollection) (name : String)
    (metadata : List (String × String)) :
    Except Unit (List ChromaCollection × ChromaCollection) :=
  if (s.find? fun c => c.name == name).isSome then .error ()
  else .ok (s ++ [⟨name, metadata⟩], ⟨name, metadata⟩)

/-- Function `create_or_get_collection` from `utils/chromadb_utils.py`: try to get
the collection; if that fails, create it with
`metadata={"hnsw:space": "cosine"}`; if creation also fails, get again.
A concurrent writer may change the client state between the failed get
and the create attempt: `interfere` is the state it leaves behind
(`id` when there is no concurrent writer). -/
def create_or_get_collection (s : List ChromaCollection)
    (interfere : List ChromaCollection → List ChromaCollection) (name : String) :
    Except Unit (List ChromaCollection × ChromaCollection) :=
  match client_get s name with
  | .ok c => .ok (s, c)
  | .error _ =>
    match client_create (interfere s) name [("hnsw:space", "cosine")] with
    | .ok (s'', c) => .ok (s'', c)
    | .error _ => (client_get (interfere s) name).map fun c => (interfere s, c)

/-! ## Page model (pages/2_Chat_with_PDF.py) -/

/-- The ingestion step of `main`: when `collection.get()["documents"]` is
falsy, split the PDF text (`split_text_into_chunks`, default size 500),
embed each chunk, and add; otherwise skip the chunk/embed/add step
entirely.  `none` would model a `ValueError` from the splitter, which
cannot occur at size 500. -/
def ingest {α : Type} (collection : List (Entry α)) (pdf_text : List Nat)
    (embed_text : List Nat → α) : Option (List (Entry α)) :=
  if documents collection = [] then
    (split_text_into_chunks pdf_text 500).map fun chunks =>
      (add_documents_to_collection collection chunks (chunks.map embed_text)).1
  else
    some collection

/-- The answer-construction step of `main`: when retrieval produced
chunks, join them with blank lines and build
`f"Question: {prompt}\n\nRelevant content from PDF:\n{context}\n\nAnswer:"`;
with no retrieved chunks the page only warns (`none`). -/
def grounded_prompt (prompt : String) (relevant_chunks : List String) : Option String :=
  if relevant_chunks = [] then none
  else
    some ("Question: " ++ prompt ++ "\n\nRelevant content from PDF:\n"
      ++ String.intercalate "\n\n" relevant_chunks ++ "\n\nAnswer:")

/-- The grounded-prompt template exactly as the spec words it:
`"Question: {q}\n\nRelevant content:\n{context}\n\nAnswer:"`. -/
def spec_grounded_prompt (q context : String) : String :=
  "Question: " ++ q ++ "\n\nRelevant content:\n" ++ context ++ "\n\nAnswer:"

/-! ## Character-level lemmas -/

theorem lowerCh_lowerCh (c : Nat) : lowerCh (lowerCh c) = lowerCh c := by
  simp only [lowerCh]; split_ifs <;> omega

theorem isAlnum_lowerCh {c : Nat} (h : isAlnum c = true) : isAlnum (lowerCh c) = true := by
  simp only [isAlnum, decide_eq_true_eq] at h ⊢
  simp only [lowerCh]; split_ifs <;> omega

theorem isAllowed_lowerCh {c : Nat} (h : isAllowed c = true) :
    isAllowed (lowerCh c) = true := by
  simp only [isAllowed, isAlnum, Bool.or_eq_true, beq_iff_eq, decide_eq_true_eq] at h ⊢
  simp only [lowerCh]; split_ifs <;> omega

/-! ## Lemmas about the sanitizer's stripping steps -/

theorem dropWhile_head_false {p : Nat → Bool} :
    ∀ {m : List Nat} {b : Nat} {r : List Nat}, m.dropWhile p = b :: r → p b = false := by
  intro m
  induction m with
  | nil => intro b r h; simp at h
  | cons a t ih =>
    intro b r h
    rw [List.dropWhile_cons] at h
    split at h
    · exact ih h
    · cases h; simpa using ‹¬(p _ = true)›

theorem dropTrailingNonAlnum_append (l : List Nat) :
    ∃ t, l = dropTrailingNonAlnum l ++ t ∧ ∀ c ∈ t, isAlnum c = false := by
  refine ⟨(l.reverse.takeWhile fun c => !isAlnum c).reverse, ?_, ?_⟩
  · conv_lhs => rw [← l.reverse_reverse,
      ← List.takeWhile_append_dropWhile (p := fun c => !isAlnum c) (l := l.reverse)]
    rw [List.reverse_append]
    rfl
  · intro c hc
    rw [List.mem_reverse] at hc
    have := List.mem_takeWhile_imp hc
    simpa using this

theorem dropTrailingNonAlnum_sublist (l : List Nat) :
    (dropTrailingNonAlnum l).Sublist l := by
  obtain ⟨t, ht, -⟩ := dropTrailingNonAlnum_append l
  conv_rhs => rw [ht]
  exact List.sublist_append_left _ _

theorem dropTrailingNonAlnum_length_le (l : List Nat) :
    (dropTrailingNonAlnum l).length ≤ l.length :=
  (dropTrailingNonAlnum_sublist l).length_le

theorem dropTrailingNonAlnum_head? (l : List Nat)
    (h : dropTrailingNonAlnum l ≠ []) : (dropTrailingNonAlnum l).head? = l.head? := by
  obtain ⟨t, ht, -⟩ := dropTrailingNonAlnum_append l
  conv_rhs => rw [ht]
  cases hd : dropTrailingNonAlnum l with
  | nil => exact absurd hd h
  | cons a r => simp [hd]

theorem dropTrailingNonAlnum_getLast? {l : List Nat} {a : Nat}
    (h : (dropTrailingNonAlnum l).getLast? = some a) : isAlnum a = true := by
  unfold dropTrailingNonAlnum at h
  cases hd : l.reverse.dropWhile (fun c => !isAlnum c) with
  | nil => rw [hd] at h; simp at h
  | cons b r =>
    have hb : (fun c => !isAlnum c) b = false := dropWhile_head_false hd
    rw [hd, ← List.head?_reverse, List.reverse_reverse] at h
    simp only [List.head?_cons, Option.some_inj] at h
    subst h
    simpa using hb

theorem dropTrailingNonAlnum_eq_self {l : List Nat}
    (h : ∀ a ∈ l.getLast?, isAlnum a = true) : dropTrailingNonAlnum l = l := by
  unfold dropTrailingNonAlnum
  cases hr : l.reverse with
  | nil => simp_all
  | cons b r =>
    have hb : l.getLast? = some b := by
      rw [← List.head?_reverse, hr, List.head?_cons]
    have hba := h b (by simp [hb])
    rw [List.dropWhile_cons]
    rw [if_neg (by simp [hba])]
    rw [← hr, List.reverse_reverse]

/-! ## The sanitizer fixes its own output (when long enough) -/

theorem sanitize_fixed {l : List Nat}
    (h1 : ∀ c ∈ l, isAllowed c = true ∧ lowerCh c = c)
    (h2 : ∀ a ∈ l.head?, isAlnum a = true)
    (h3 : ∀ a ∈ l.getLast?, isAlnum a = true)
    (h4 : 3 ≤ l.length) (h5 : l.length ≤ 63) :
    sanitize_collection_name l = l := by
  unfold sanitize_collection_name
  have e1 : replaceInvalid l = l := by
    unfold replaceInvalid
    conv_rhs => rw [← List.map_id l]
    refine List.map_congr_left ?_
    intro a ha
    simp [(h1 a ha).1]
  rw [e1]
  have e2 : stripLeadingNonAlnum l = l := by
    unfold stripLeadingNonAlnum
    cases l with
    | nil => simp
    | cons a t =>
      have := h2 a (by simp)
      rw [List.dropWhile_cons]
      simp [this]
  rw [e2]
  have e3 : dropTrailingNonAlnum l = l := dropTrailingNonAlnum_eq_self h3
  rw [e3]
  have e4 : padIfShort l = l := by unfold padIfShort; rw [if_neg (by omega)]
  rw [e4, List.take_of_length_le h5, e3]
  conv_rhs => rw [← List.map_id l]
  refine List.map_congr_left ?_
  intro a ha
  simp [(h1 a ha).2]

theorem mem_padIfShort {l : List Nat} {c : Nat} (h : c ∈ padIfShort l) :
    c ∈ ([99, 111, 108, 95] : List Nat) ∨ c ∈ l := by
  unfold padIfShort at h
  split at h
  · exact List.mem_append.1 h
  · exact Or.inr h

theorem sanitize_mem_allowed {x : List Nat} :
    ∀ c ∈ sanitize_collection_name x, isAllowed c = true ∧ lowerCh c = c := by
  intro c hc
  unfold sanitize_collection_name at hc
  simp only [List.mem_map] at hc
  obtain ⟨d, hd, rfl⟩ := hc
  have hallow : isAllowed d = true := by
    have hd5 := (dropTrailingNonAlnum_sublist _).subset hd
    have hd4 := (List.take_sublist _ _).subset hd5
    rcases mem_padIfShort hd4 with h99 | hd3
    · fin_cases h99 <;> decide
    · have hd2 := (dropTrailingNonAlnum_sublist _).subset hd3
      have hd1 := (List.dropWhile_sublist _).subset hd2
      unfold replaceInvalid at hd1
      simp only [List.mem_map] at hd1
      obtain ⟨e, -, rfl⟩ := hd1
      by_cases he : isAllowed e = true
      · rw [if_pos he]; exact he
      · rw [if_neg he]; decide
  exact ⟨isAllowed_lowerCh hallow, lowerCh_lowerCh d⟩

theorem head?_padIfShort {l : List Nat} {b : Nat} (h : (padIfShort l).head? = some b) :
    b = 99 ∨ l.head? = some b := by
  unfold padIfShort at h
  split at h
  · simp only [List.cons_append, List.head?_cons, Option.some_inj] at h
    exact Or.inl h.symm
  · exact Or.inr h

theorem head?_take {l : List Nat} {n : Nat} {b : Nat} (h : (l.take n).head? = some b) :
    l.head? = some b := by
  cases l with
  | nil => simp at h
  | cons a t =>
    cases n with
    | zero => simp at h
    | succ m => simpa using h

theorem sanitize_head? {x : List Nat} :
    ∀ a ∈ (sanitize_collection_name x).head?, isAlnum a = true := by
  intro a ha
  unfold sanitize_collection_name at ha
  rw [List.head?_map] at ha
  simp only [Option.mem_def, Option.map_eq_some'] at ha
  obtain ⟨b, hb, rfl⟩ := ha
  refine isAlnum_lowerCh ?_
  have hne : dropTrailingNonAlnum
      ((padIfShort (dropTrailingNonAlnum (stripLeadingNonAlnum (replaceInvalid x)))).take 63)
      ≠ [] := by
    intro hnil; rw [hnil] at hb; simp at hb
  rw [dropTrailingNonAlnum_head? _ hne] at hb
  have hb4 := head?_take hb
  rcases head?_padIfShort hb4 with rfl | hb3
  · decide
  · cases h3 : dropTrailingNonAlnum (stripLeadingNonAlnum (replaceInvalid x)) with
    | nil => rw [h3] at hb3; simp at hb3
    | cons a3 t3 =>
      have hne3 : dropTrailingNonAlnum (stripLeadingNonAlnum (replaceInvalid x)) ≠ [] := by
        rw [h3]; simp
      rw [dropTrailingNonAlnum_head? _ hne3] at hb3
      cases h2 : stripLeadingNonAlnum (replaceInvalid x) with
      | nil => rw [h2] at hb3; simp at hb3
      | cons a2 t2 =>
        rw [h2, List.head?_cons, Option.some_inj] at hb3
        subst hb3
        unfold stripLeadingNonAlnum at h2
        have := dropWhile_head_false (p := fun c => !isAlnum c) h2
        simpa using this

theorem sanitize_getLast? {x : List Nat} :
    ∀ a ∈ (sanitize_collection_name x).getLast?, isAlnum a = true := by
  intro a ha
  unfold sanitize_collection_name at ha
  rw [List.getLast?_map] at ha
  simp only [Option.mem_def, Option.map_eq_some'] at ha
  obtain ⟨b, hb, rfl⟩ := ha
  exact isAlnum_lowerCh (dropTrailingNonAlnum_getLast? hb)

theorem sanitize_length_le {x : List Nat} :
    (sanitize_collection_name x).length ≤ 63 := by
  unfold sanitize_collection_name
  rw [List.length_map]
  calc (dropTrailingNonAlnum _).length
      ≤ _ := dropTrailingNonAlnum_length_le _
    _ ≤ 63 := by rw [List.length_take]; omega

/-! ## Chunking lemmas -/

theorem pyAdjust_natCast (len m : Nat) : pyAdjust len (m : Int) = min m len := by
  unfold pyAdjust
  rw [if_neg (by omega)]
  simp

theorem pySlice_natCast (s : List Nat) (m c : Nat) :
    pySlice s (m : Int) ((m : Int) + (c : Int)) = (s.drop m).take c := by
  unfold pySlice
  rw [show (m : Int) + (c : Int) = ((m + c : Nat) : Int) by push_cast; ring]
  rw [pyAdjust_natCast, pyAdjust_natCast]
  rcases le_or_lt s.length m with h | h
  · rw [List.drop_eq_nil_of_le (by omega : s.length ≤ min m s.length)]
    rw [List.drop_eq_nil_of_le h]
    simp
  · rw [min_eq_left (by omega : m ≤ s.length)]
    rw [show min (m + c) s.length - m = min c (s.length - m) by omega]
    exact List.take_eq_take.2 (by rw [List.length_drop]; omega)

theorem chunkList_cons (a : Nat) (t : List Nat) (n : Nat) :
    chunkList (a :: t) (n + 1)
      = (a :: t).take (n + 1) :: chunkList ((a :: t).drop (n + 1)) (n + 1) := by
  rw [chunkList]

theorem div_ceil_pred {L c n : Nat} (hc : 0 < c) (hL : 0 < L)
    (hs : (L + c - 1) / c = n + 1) : (L - c + c - 1) / c = n := by
  have e0 : L + c - 1 = (L - 1) + c := by omega
  rw [e0, Nat.add_div_right _ hc] at hs
  have hn : (L - 1) / c = n := by omega
  rcases le_or_lt c L with hle | hlt
  · rw [show L - c + c - 1 = L - 1 by omega]
    exact hn
  · rw [show L - c + c - 1 = c - 1 by omega, Nat.div_eq_of_lt (by omega)]
    rw [Nat.div_eq_of_lt (by omega)] at hn
    omega

theorem windows_eq_chunkList (c : Nat) (hc : 0 < c) :
    ∀ (n : Nat) (s : List Nat), (s.length + c - 1) / c = n →
      (List.range n).map (fun k => (s.drop (c * k)).take c) = chunkList s c := by
  intro n
  induction n with
  | zero =>
    intro s hs
    have hlen : s.length = 0 := by
      by_contra h
      rw [show s.length + c - 1 = (s.length - 1) + c by omega, Nat.add_div_right _ hc] at hs
      exact Nat.succ_ne_zero _ hs
    rw [List.eq_nil_of_length_eq_zero hlen]
    obtain ⟨m, rfl⟩ : ∃ m, c = m + 1 := ⟨c - 1, by omega⟩
    simp [chunkList]
  | succ n ih =>
    intro s hs
    cases s with
    | nil =>
      exfalso
      simp only [List.length_nil, Nat.zero_add] at hs
      rw [Nat.div_eq_of_lt (by omega)] at hs
      omega
    | cons a t =>
      obtain ⟨m, rfl⟩ : ∃ m, c = m + 1 := ⟨c - 1, by omega⟩
      rw [chunkList_cons]
      rw [List.range_succ_eq_map, List.map_cons, List.map_map]
      simp only [List.cons.injEq]
      constructor
      · simp
      · have hfun : ((fun k => ((a :: t).drop ((m + 1) * k)).take (m + 1)) ∘ Nat.succ)
            = fun k => (((a :: t).drop (m + 1)).drop ((m + 1) * k)).take (m + 1) := by
          funext k
          simp only [Function.comp_apply, Nat.succ_eq_add_one]
          rw [List.drop_drop]
          congr 2
          ring
        rw [hfun]
        apply ih
        rw [List.length_drop]
        exact div_ceil_pred hc (by simp) hs

theorem split_text_into_chunks_eq_chunkList (s : List Nat) (cs : Int) (h : 0 < cs) :
    split_text_into_chunks s cs = some (chunkList s cs.toNat) := by
  have hcsn : ((cs.toNat : Nat) : Int) = cs := Int.toNat_of_nonneg h.le
  unfold split_text_into_chunks pyRange
  rw [if_neg (by omega), if_pos h, Option.map_some']
  refine congrArg some ?_
  rw [List.map_map]
  rw [Int.sub_zero, Int.toNat_natCast]
  rw [← windows_eq_chunkList cs.toNat (by omega) ((s.length + cs.toNat - 1) / cs.toNat) s rfl]
  refine List.map_congr_left ?_
  intro k hk
  simp only [Function.comp_apply]
  rw [show (0 : Int) + cs * (k : Int) = ((cs.toNat * k : Nat) : Int) by
    rw [Nat.cast_mul, hcsn]; ring]
  rw [show ((cs.toNat * k : Nat) : Int) + cs
      = ((cs.toNat * k : Nat) : Int) + ((cs.toNat : Nat) : Int) by rw [hcsn]]
  rw [pySlice_natCast]

theorem chunkList_flatten (c : Nat) (hc : 0 < c) :
    ∀ s : List Nat, (chunkList s c).flatten = s := by
  suffices H : ∀ (n : Nat) (s : List Nat), s.length = n → (chunkList s c).flatten = s by
    intro s; exact H s.length s rfl
  intro n
  induction n using Nat.strong_induction_on with
  | _ n ih =>
    intro s hn
    cases s with
    | nil => simp [chunkList]
    | cons a t =>
      obtain ⟨m, rfl⟩ : ∃ m, c = m + 1 := ⟨c - 1, by omega⟩
      rw [chunkList_cons, List.flatten_cons]
      rw [ih ((a :: t).drop (m + 1)).length (by subst hn; simp; omega) _ rfl]
      exact List.take_append_drop _ _

theorem chunkList_eq_nil_iff {c : Nat} (hc : 0 < c) {s : List Nat} :
    chunkList s c = [] ↔ s = [] := by
  cases s with
  | nil => simp [chunkList]
  | cons a t =>
    obtain ⟨m, rfl⟩ : ∃ m, c = m + 1 := ⟨c - 1, by omega⟩
    rw [chunkList_cons]
    simp

theorem chunkList_dropLast_length (c : Nat) (hc : 0 < c) :
    ∀ s : List Nat, ∀ x ∈ (chunkList s c).dropLast, x.length = c := by
  suffices H : ∀ (n : Nat) (s : List Nat), s.length = n →
      ∀ x ∈ (chunkList s c).dropLast, x.length = c by
    intro s; exact H s.length s rfl
  intro n
  induction n using Nat.strong_induction_on with
  | _ n ih =>
    intro s hn
    cases s with
    | nil => simp [chunkList]
    | cons a t =>
      obtain ⟨m, rfl⟩ : ∃ m, c = m + 1 := ⟨c - 1, by omega⟩
      rw [chunkList_cons]
      cases hrest : chunkList ((a :: t).drop (m + 1)) (m + 1) with
      | nil => simp
      | cons r1 r2 =>
        intro x hx
        rw [List.dropLast_cons₂] at hx
        rcases List.mem_cons.1 hx with rfl | hx'
        · have hne : (a :: t).drop (m + 1) ≠ [] := by
            intro hnil
            rw [hnil] at hrest
            simp [chunkList] at hrest
          rw [List.length_take]
          have hlt : m + 1 < (a :: t).length := by
            by_contra hcon
            exact hne (List.drop_eq_nil_of_le (by omega))
          simp at hlt ⊢
          omega
        · rw [← hrest] at hx'
          exact ih ((a :: t).drop (m + 1)).length (by subst hn; simp; omega) _ rfl x hx'

/-! ## `add_documents_to_collection` lemmas -/

theorem hasId_append_singleton {α : Type} (c : List (Entry α)) (e : Entry α) (i : String) :
    hasId (c ++ [e]) i = (hasId c i || (e.id == i)) := by
  unfold hasId
  simp [List.any_append]

theorem collection_add_ok {α : Type} {c c' : List (Entry α)} {e : Entry α}
    (h : collection_add c e = .ok c') : hasId c e.id = false ∧ c' = c ++ [e] := by
  unfold collection_add at h
  split at h
  · cases h
  · cases h
    simp_all

theorem collection_add_error {α : Type} {c : List (Entry α)} {e : Entry α} {u : Unit}
    (h : collection_add c e = .error u) : hasId c e.id = true := by
  unfold collection_add at h
  split at h
  · assumption
  · cases h

theorem add_documents_loop_append {α : Type} :
    ∀ (items : List (List Nat × α)) (c : List (Entry α)) (idx : Nat),
      ∃ ext, (add_documents_loop c idx items).1 = c ++ ext ∧
        (add_documents_loop c idx items).2 = ext.length := by
  intro items
  induction items with
  | nil =>
    intro c idx
    exact ⟨[], by simp [add_documents_loop], by simp [add_documents_loop]⟩
  | cons p rest ih =>
    intro c idx
    obtain ⟨chunk, emb⟩ := p
    cases hadd : collection_add c ⟨chunkId idx, chunk, idx, emb⟩ with
    | ok c' =>
      obtain ⟨-, rfl⟩ := collection_add_ok hadd
      simp only [add_documents_loop, hadd]
      obtain ⟨ext, h1, h2⟩ := ih (c ++ [⟨chunkId idx, chunk, idx, emb⟩]) (idx + 1)
      refine ⟨⟨chunkId idx, chunk, idx, emb⟩ :: ext, ?_, ?_⟩
      · simp only [h1, List.append_assoc, List.singleton_append]
      · simp [h2]
    | error u =>
      simp only [add_documents_loop, hadd]
      exact ih c (idx + 1)

theorem length_filter_le_of_imp {l : List Nat} {p q : Nat → Bool}
    (h : ∀ a ∈ l, p a = true → q a = true) :
    (l.filter p).length ≤ (l.filter q).length := by
  induction l with
  | nil => simp
  | cons a t ih =>
    have ht : ∀ b ∈ t, p b = true → q b = true := fun b hb => h b (List.mem_cons_of_mem a hb)
    rw [List.filter_cons, List.filter_cons]
    by_cases hp : p a = true
    · rw [if_pos hp, if_pos (h a (List.mem_cons_self a t) hp)]
      simpa using ih ht
    · rw [if_neg hp]
      split
      · exact le_trans (ih ht) (by simp)
      · exact ih ht

theorem filter_range_succ_shift (P : Nat → Bool) (n : Nat) :
    ((List.range (n + 1)).filter P).length
      = (if P 0 then 1 else 0) + ((List.range n).filter fun k => P (k + 1)).length := by
  rw [List.range_succ_eq_map, List.filter_cons]
  split
  · rw [List.length_cons, List.filter_map, List.length_map]
    simp only [Function.comp_def, Nat.succ_eq_add_one]
    omega
  · rw [List.filter_map, List.length_map]
    simp only [Function.comp_def, Nat.succ_eq_add_one]
    omega

theorem add_documents_loop_count_le {α : Type} :
    ∀ (items : List (List Nat × α)) (c : List (Entry α)) (idx : Nat),
      (add_documents_loop c idx items).2
        ≤ ((List.range items.length).filter fun k => !hasId c (chunkId (idx + k))).length := by
  intro items
  induction items with
  | nil => intro c idx; simp [add_documents_loop]
  | cons p rest ih =>
    intro c idx
    obtain ⟨chunk, emb⟩ := p
    rw [List.length_cons, filter_range_succ_shift]
    have hshift : ((List.range rest.length).filter
          fun k => !hasId c (chunkId (idx + (k + 1)))).length
        = ((List.range rest.length).filter fun k => !hasId c (chunkId (idx + 1 + k))).length := by
      refine congrArg List.length (List.filter_congr ?_)
      intro k hk
      have e : idx + (k + 1) = idx + 1 + k := by omega
      rw [e]
    cases hadd : collection_add c ⟨chunkId idx, chunk, idx, emb⟩ with
    | ok c' =>
      obtain ⟨hfresh, rfl⟩ := collection_add_ok hadd
      simp only [add_documents_loop, hadd]
      rw [if_pos (by simp [hfresh] : (!hasId c (chunkId (idx + 0))) = true)]
      have hmono : ((List.range rest.length).filter
            fun k => !hasId (c ++ [⟨chunkId idx, chunk, idx, emb⟩])
              (chunkId (idx + 1 + k))).length
          ≤ ((List.range rest.length).filter fun k => !hasId c (chunkId (idx + 1 + k))).length := by
        refine length_filter_le_of_imp ?_
        intro a ha hp
        rw [hasId_append_singleton] at hp
        simp only [Bool.not_or, Bool.and_eq_true, Bool.not_eq_true'] at hp ⊢
        exact hp.1
      have hle := le_trans (ih (c ++ [⟨chunkId idx, chunk, idx, emb⟩]) (idx + 1)) hmono
      rw [hshift]
      omega
    | error u =>
      have hdup : hasId c (chunkId idx) = true := by
        simpa using collection_add_error hadd
      simp only [add_documents_loop, hadd]
      rw [if_neg (by simp [hdup] : ¬((!hasId c (chunkId (idx + 0))) = true))]
      rw [hshift]
      simpa using ih c (idx + 1)

/-! ## Ingestion lemmas -/

theorem documents_eq_nil_iff {α : Type} (c : List (Entry α)) :
    documents c = [] ↔ c = [] := by
  unfold documents
  simp

theorem add_documents_loop_cons_nil_ne {α : Type} (chunk : List Nat) (emb : α)
    (rest : List (List Nat × α)) (idx : Nat) :
    (add_documents_loop ([] : List (Entry α)) idx ((chunk, emb) :: rest)).1 ≠ [] := by
  have hadd : collection_add ([] : List (Entry α)) ⟨chunkId idx, chunk, idx, emb⟩
      = .ok [⟨chunkId idx, chunk, idx, emb⟩] := by
    unfold collection_add hasId
    simp
  simp only [add_documents_loop, hadd]
  obtain ⟨ext, h1, -⟩ :=
    add_documents_loop_append rest [⟨chunkId idx, chunk, idx, emb⟩] (idx + 1)
  rw [h1]
  simp

theorem ingest_skip {α : Type} (col : List (Entry α)) (text : List Nat)
    (embed : List Nat → α) (h : documents col ≠ []) : ingest col text embed = some col := by
  unfold ingest
  rw [if_neg h]

theorem ingest_nil_eq {α : Type} (text : List Nat) (embed : List Nat → α) :
    ingest ([] : List (Entry α)) text embed
      = some ((add_documents_to_collection [] (chunkList text 500)
          ((chunkList text 500).map embed)).1) := by
  unfold ingest
  rw [if_pos (by simp [documents])]
  rw [split_text_into_chunks_eq_chunkList text 500 (by norm_num)]
  rfl

/-! ## Query lemmas -/

theorem chroma_query_eval {α : Type} (dist : α → α → ℚ) (c : List (Entry α)) (q : α)
    (n : Nat) :
    query_collection (chroma_query dist c q n)
      = ((c.insertionSort fun e₁ e₂ => dist e₁.embedding q ≤ dist e₂.embedding q).take n).map
          fun e => e.document := rfl

/-! ## Client lemmas -/

theorem client_get_ok_find {s : List ChromaCollection} {name : String}
    {c : ChromaCollection} (h : client_get s name = .ok c) :
    (s.find? fun x => x.name == name) = some c := by
  unfold client_get at h
  cases hf : s.find? fun x => x.name == name with
  | some d => rw [hf] at h; cases h; rfl
  | none => rw [hf] at h; cases h

theorem client_get_error_find {s : List ChromaCollection} {name : String}
    (h : client_get s name = .error ()) :
    (s.find? fun x => x.name == name) = none := by
  unfold client_get at h
  cases hf : s.find? fun x => x.name == name with
  | some d => rw [hf] at h; cases h
  | none => rfl

/-! ## Claim theorems -/

/-- C1: the claimed sanitizer invariant — for every non-empty input the
result has length between 3 and 63, is lowercase, and has alphanumeric
boundaries — fails on the code: on the 65-character input
`"ab" + "_" * 62 + "c"` the `col_` min-length repair happens before the
truncation to 63, and the final trailing-strip then reduces the name to
`"ab"`, of length 2 < 3.  This theorem evaluates the code at that
failing input. -/
theorem sanitize_min_length_violated :
    sanitize_collection_name sanitizeLengthBugInput = strToCodes "ab" ∧
      ¬(3 ≤ (sanitize_collection_name sanitizeLengthBugInput).length) := by
  decide

/-- C2 (counterexample): the sanitizer is not idempotent on every string.
On `"xy" + "_" * 62 + "z"` it returns `"xy"` (length 2, by the same
truncate-then-strip interaction as C1), and sanitizing `"xy"` again
prefixes `col_`, giving `"col_xy" ≠ "xy"`. -/
theorem sanitize_not_idempotent :
    sanitize_collection_name (sanitize_collection_name sanitizeIdemBugInput)
      ≠ sanitize_collection_name sanitizeIdemBugInput := by
  decide

/-- C2 (amended): the sanitizer is idempotent on every input whose
sanitized form has at least 3 characters — the only exceptions are
inputs where truncation at 63 followed by the trailing strip leaves
fewer than 3 characters. -/
theorem sanitize_idempotent_of_min_length {x : List Nat}
    (h : 3 ≤ (sanitize_collection_name x).length) :
    sanitize_collection_name (sanitize_collection_name x) = sanitize_collection_name x :=
  sanitize_fixed sanitize_mem_allowed sanitize_head? sanitize_getLast? h sanitize_length_le

/-- Witness for C2's amended theorem at the concrete input
`"My Docs.pdf"`. -/
theorem sanitize_idempotent_of_min_length_witness :
    sanitize_collection_name (sanitize_collection_name (strToCodes "My Docs.pdf"))
      = sanitize_collection_name (strToCodes "My Docs.pdf") :=
  sanitize_idempotent_of_min_length (by decide)

/-- C3 (counterexample): the spec's worked example is wrong about the
code: `sanitize("pdf_My Report!.pdf")` is not `"pdf_my_report_pdf"` —
the two adjacent invalid characters `!` and `.` each become their own
underscore, and nothing collapses the run. -/
theorem sanitize_example_ne_spec_value :
    sanitize_collection_name (strToCodes "pdf_My Report!.pdf")
      ≠ strToCodes "pdf_my_report_pdf" := by
  decide

/-- C3 (amended): on `"pdf_My Report!.pdf"` the sanitizer returns exactly
`"pdf_my_report__pdf"`, with a double underscore where `"!."` stood. -/
theorem sanitize_example_value :
    sanitize_collection_name (strToCodes "pdf_My Report!.pdf")
      = strToCodes "pdf_my_report__pdf" := by
  decide

/-- C4: for every string and every positive chunk size,
`split_text_into_chunks` succeeds, concatenating its chunks in order
reproduces the input exactly, and every chunk except possibly the last
has length exactly `chunk_size`. -/
theorem split_text_into_chunks_spec (s : List Nat) (cs : Int) (h : 0 < cs) :
    ∃ chunks, split_text_into_chunks s cs = some chunks ∧ chunks.flatten = s ∧
      ∀ x ∈ chunks.dropLast, x.length = cs.toNat :=
  ⟨chunkList s cs.toNat, split_text_into_chunks_eq_chunkList s cs h,
    chunkList_flatten cs.toNat (by omega) s, chunkList_dropLast_length cs.toNat (by omega) s⟩

/-- Witness for C4 at the concrete input `[7, 8, 9, 10, 11]` with chunk
size 2. -/
theorem split_text_into_chunks_spec_witness :
    ∃ chunks, split_text_into_chunks [7, 8, 9, 10, 11] 2 = some chunks ∧
      chunks.flatten = [7, 8, 9, 10, 11] ∧
      ∀ x ∈ chunks.dropLast, x.length = (2 : Int).toNat :=
  split_text_into_chunks_spec [7, 8, 9, 10, 11] 2 (by decide)

/-- C5 (counterexample): `split_text_into_chunks("", n)` does not succeed
for every `n`: at `n = 0` Python's `range(0, 0, 0)` raises `ValueError`
(`range` rejects a zero step before looking at its bounds), so the call
fails rather than returning an empty sequence. -/
theorem split_empty_chunk_zero_fails : split_text_into_chunks [] 0 = none := by
  decide

/-- C5 (amended): for every nonzero chunk size, positive or negative,
splitting the empty string returns the empty sequence. -/
theorem split_empty_eq_nil (n : Int) (h : n ≠ 0) :
    split_text_into_chunks [] n = some [] := by
  unfold split_text_into_chunks pyRange
  rw [if_neg h]
  rcases lt_or_gt_of_ne h with hneg | hpos
  · rw [if_neg (by omega)]
    simp only [List.length_nil, Nat.cast_zero, Int.sub_self, Int.sub_zero, Int.toNat_zero,
      Nat.zero_add]
    rw [Nat.div_eq_of_lt (by omega)]
    simp
  · rw [if_pos hpos]
    simp only [List.length_nil, Nat.cast_zero, Int.sub_self, Int.sub_zero, Int.toNat_zero,
      Nat.zero_add]
    rw [Nat.div_eq_of_lt (by omega)]
    simp

/-- Witness for C5's amended theorem at `n = -7`. -/
theorem split_empty_eq_nil_witness : split_text_into_chunks [] (-7) = some [] :=
  split_empty_eq_nil (-7) (by decide)

/-- C6 (counterexample): the grounded prompt handed to the model is not
the spec's template `"Question: {q}\n\nRelevant content:\n{context}\n\nAnswer:"`:
already at question `"q"` and retrieved chunk `"c"` the code's prompt
differs, because its middle line reads `"Relevant content from PDF:"`. -/
theorem grounded_prompt_ne_spec_template :
    grounded_prompt "q" ["c"] ≠ some (spec_grounded_prompt "q" "c") := by
  decide

/-- C6 (amended): for every question and non-empty retrieved chunk list,
the prompt handed to the model is exactly
`"Question: {q}\n\nRelevant content from PDF:\n{context}\n\nAnswer:"`
with the chunks joined by blank lines as the context. -/
theorem grounded_prompt_spec (q : String) (chunks : List String) (h : chunks ≠ []) :
    grounded_prompt q chunks
      = some ("Question: " ++ q ++ "\n\nRelevant content from PDF:\n"
          ++ String.intercalate "\n\n" chunks ++ "\n\nAnswer:") := by
  unfold grounded_prompt
  rw [if_neg h]

/-- Witness for C6's amended theorem at question `"q"` and chunks `["c"]`. -/
theorem grounded_prompt_spec_witness :
    grounded_prompt "q" ["c"]
      = some ("Question: " ++ "q" ++ "\n\nRelevant content from PDF:\n"
          ++ String.intercalate "\n\n" ["c"] ++ "\n\nAnswer:") :=
  grounded_prompt_spec "q" ["c"] (by decide)

/-- C7: re-ingesting into a collection is a no-op once the collection
reports existing documents — the chunk/embed/add step is guarded by
`if not collection.get()["documents"]` — and hence ingesting the same
document a second time leaves the collection's chunks unchanged. -/
theorem ingest_idempotent {α : Type} (col : List (Entry α)) (text : List Nat)
    (embed : List Nat → α) :
    (documents col ≠ [] → ingest col text embed = some col) ∧
    (∀ col', ingest col text embed = some col' → ingest col' text embed = some col') := by
  refine ⟨fun h => ingest_skip col text embed h, ?_⟩
  intro col' h
  by_cases hdoc : documents col = []
  · have hcol : col = [] := (documents_eq_nil_iff col).1 hdoc
    subst hcol
    rw [ingest_nil_eq] at h
    obtain rfl := Option.some_inj.1 h
    by_cases hch : chunkList text 500 = []
    · have hred : (add_documents_to_collection ([] : List (Entry α)) []
          (List.map embed ([] : List (List Nat)))).1 = [] := rfl
      rw [hch, hred, ingest_nil_eq, hch, hred]
    · apply ingest_skip
      rw [Ne, documents_eq_nil_iff]
      unfold add_documents_to_collection
      cases hcl : chunkList text 500 with
      | nil => exact absurd hcl hch
      | cons ch rest =>
        rw [List.map_cons, List.zip_cons_cons]
        exact add_documents_loop_cons_nil_ne ch (embed ch) (rest.zip (rest.map embed)) 0
  · have hskip := ingest_skip col text embed hdoc
    rw [hskip] at h
    obtain rfl := Option.some_inj.1 h.symm
    exact hskip

/-- Witness for C7 on a one-entry collection: its documents list is
non-empty, so ingestion is skipped. -/
theorem ingest_idempotent_witness :
    ingest [⟨chunkId 0, [97], 0, (5 : Nat)⟩] [98, 99] (fun _ => 0)
      = some [⟨chunkId 0, [97], 0, (5 : Nat)⟩] :=
  (ingest_idempotent [⟨chunkId 0, [97], 0, (5 : Nat)⟩] [98, 99] (fun _ => 0)).1 (by decide)

/-- C8: `add_documents_to_collection` never raises — every per-item
insertion failure is skipped and the loop continues — and it returns the
count of chunks actually inserted (the collection grows by exactly that
many entries), which is at most the number of genuinely new ids
`chunk_k` among the zipped items. -/
theorem add_documents_to_collection_spec {α : Type} (c : List (Entry α))
    (chunks : List (List Nat)) (embeddings : List α) :
    ∃ inserted, (add_documents_to_collection c chunks embeddings).1 = c ++ inserted ∧
      (add_documents_to_collection c chunks embeddings).2 = inserted.length ∧
      (add_documents_to_collection c chunks embeddings).2
        ≤ ((List.range (min chunks.length embeddings.length)).filter
            fun k => !hasId c (chunkId k)).length := by
  obtain ⟨ext, h1, h2⟩ := add_documents_loop_append (chunks.zip embeddings) c 0
  refine ⟨ext, h1, h2, ?_⟩
  have hle := add_documents_loop_count_le (chunks.zip embeddings) c 0
  rw [List.length_zip] at hle
  simpa using hle

/-- C9: `query_collection` never propagates an exception — the `except`
path (`.error`), an absent `"documents"` key, and an empty result all
produce `[]`; in particular an empty collection yields `[]`; and
otherwise the result is at most `n_results` stored documents listed in
ascending order of the backend's distance to the query embedding. -/
theorem query_collection_spec {α : Type} (dist : α → α → ℚ) (c : List (Entry α))
    (q : α) (n : Nat) :
    (∀ u : Unit, query_collection (.error u) = []) ∧
    query_collection (.ok none) = [] ∧
    query_collection (.ok (some [])) = [] ∧
    (c = [] → query_collection (chroma_query dist c q n) = []) ∧
    ∃ es : List (Entry α),
      query_collection (chroma_query dist c q n) = es.map (fun e => e.document) ∧
      es.length ≤ n ∧ (∀ e ∈ es, e ∈ c) ∧
      es.Pairwise fun e₁ e₂ => dist e₁.embedding q ≤ dist e₂.embedding q := by
  refine ⟨fun u => rfl, rfl, rfl, ?_, ?_⟩
  · rintro rfl
    rw [chroma_query_eval]
    simp [List.insertionSort]
  · refine ⟨(c.insertionSort fun e₁ e₂ => dist e₁.embedding q ≤ dist e₂.embedding q).take n,
      chroma_query_eval dist c q n, List.length_take_le n _, ?_, ?_⟩
    · intro e he
      have hmem := (List.take_sublist n _).subset he
      exact (List.perm_insertionSort
        (fun e₁ e₂ => dist e₁.embedding q ≤ dist e₂.embedding q) c).subset hmem
    · haveI : IsTotal (Entry α) fun e₁ e₂ => dist e₁.embedding q ≤ dist e₂.embedding q :=
        ⟨fun a b => le_total _ _⟩
      haveI : IsTrans (Entry α) fun e₁ e₂ => dist e₁.embedding q ≤ dist e₂.embedding q :=
        ⟨fun a b c hab hbc => le_trans hab hbc⟩
      exact List.Pairwise.sublist (List.take_sublist n _)
        (List.sorted_insertionSort
          (fun e₁ e₂ : Entry α => dist e₁.embedding q ≤ dist e₂.embedding q) c)

/-- Witness for C9 on a freshly created, empty collection. -/
theorem query_collection_spec_witness :
    query_collection (chroma_query (fun a b : ℚ => |a - b|) ([] : List (Entry ℚ)) 0 3)
      = [] :=
  (query_collection_spec (fun a b : ℚ => |a - b|) ([] : List (Entry ℚ)) 0 3).2.2.2.1 rfl

/-- C10: `create_or_get_collection` is idempotent and race-tolerant: an
existing collection is returned as-is; a missing one is created with the
cosine-distance metadata; and when a concurrent writer (`f`) creates the
collection between the failed get and the create attempt, the creation
failure is resolved by re-fetching the existing collection rather than
surfacing an error. -/
theorem create_or_get_collection_spec (s : List ChromaCollection)
    (f : List ChromaCollection → List ChromaCollection) (name : String) :
    (∀ c, client_get s name = .ok c → create_or_get_collection s f name = .ok (s, c)) ∧
    (client_get s name = .error () → client_get (f s) name = .error () →
      create_or_get_collection s f name
        = .ok (f s ++ [⟨name, [("hnsw:space", "cosine")]⟩],
            ⟨name, [("hnsw:space", "cosine")]⟩)) ∧
    (∀ c, client_get s name = .error () → client_get (f s) name = .ok c →
      create_or_get_collection s f name = .ok (f s, c)) := by
  refine ⟨?_, ?_, ?_⟩
  · intro c h
    unfold create_or_get_collection
    rw [h]
  · intro h1 h2
    unfold create_or_get_collection
    rw [h1]
    unfold client_create
    rw [client_get_error_find h2]
    rfl
  · intro c h1 h2
    unfold create_or_get_collection
    rw [h1]
    unfold client_create
    rw [client_get_ok_find h2]
    simp only [Option.isSome_some, if_pos]
    rw [h2]
    rfl

/-- Witness for C10: creating `"abc"` in an empty store with no
concurrent writer. -/
theorem create_or_get_collection_spec_witness :
    create_or_get_collection [] id "abc"
      = .ok ([⟨"abc", [("hnsw:space", "cosine")]⟩], ⟨"abc", [("hnsw:space", "cosine")]⟩) :=
  (create_or_get_collection_spec [] id "abc").2.1 rfl rfl
